import Mathlib

/-!
# Verification of the semantic retrieval and caching engine

Shallow embedding of the core of `youngdongk/my-workflow-demo`:

* `src/shared/utils.py` — `VectorHelper.cosine_similarity`,
  `VectorHelper.find_most_similar`, `CacheHelper` (get_key / get / set / clear);
* `src/slack-rag-bot/main.py` — `cosine_similarity`, `search_knowledge_base`,
  `generate_answer`, `log_interaction`, and the RAG stage of `slack_bot`.

Modelling conventions:

* Ordinary (finite) Python floats are embedded as real numbers `ℝ`.  The one
  non-real float value the code can produce is IEEE `nan`, from the division
  by a zero norm product in `cosine_similarity`; similarity scores are
  therefore embedded as `PyFloat` (an ordinary real, or `nan`), and the
  division is modelled by an explicit case split on the denominator being
  zero.  When the denominator `‖a‖·‖b‖` is zero the numerator `a·b` is
  exactly `0.0` as well (lemma `dot_eq_zero_of_norm_mul_eq_zero`), so the
  IEEE result is `0.0/0.0 = nan`, never an infinity.
* IEEE comparisons against `nan` are all false (`pyLE`).  CPython's
  `list.sort(key=..., reverse=True)` is a stable descending sort; on key
  lists free of `nan` the comparator is a total preorder and Timsort's
  output is the unique stable sorted permutation, which Lean's stable
  `List.mergeSort` with the same comparator also computes — there the
  embedding is exact.  On key lists containing `nan` the comparisons are
  inconsistent and Timsort's output order is determined by the algorithm's
  internals; the embedding still runs `mergeSort`, but no theorem below
  asserts anything about the order of a `nan`-containing sort except its
  length and that it permutes its input — properties shared by every sort —
  and the one refutation on such an input (claim C4) is insensitive to the
  order, because every neighbouring val/nan pair falsifies sortedness in
  either arrangement.
* Code that can raise a Python exception is embedded with `Except PyErr`.
* Python `dict` (3.7+) preserves insertion order: it is embedded as an
  association list ordered by insertion.  Assigning to an existing key keeps
  its position; assigning a fresh key appends; `next(iter(d))` is the head.
* External collaborators (Vertex AI embedding/generation models, the BigQuery
  client) are parameters of the embedded functions: the query embedding, the
  fetched rows and the LLM are inputs.
-/

namespace Spec2Proof

open List

/-- Python-level exceptions relevant to the embedded code.
`valueError` is what `np.dot` raises on a shape (dimensionality) mismatch.
`degenerateVector` stands for the spec's `DegenerateVectorError`; no code
path of the repository constructs it. -/
inductive PyErr : Type where
  | valueError
  | degenerateVector
deriving DecidableEq, Repr

/-! ## Vector operations (`VectorHelper`, and the identical copies in
`src/slack-rag-bot/main.py`) -/

/-- `np.dot(a, b)` on two equal-length 1-D vectors: the sum of pointwise
products. -/
def dot (a b : List ℝ) : ℝ := (List.zipWith (fun x y => x * y) a b).sum

/-- `np.linalg.norm(a)`: the Euclidean norm, square root of the sum of
squares. -/
noncomputable def norm (a : List ℝ) : ℝ := Real.sqrt ((a.map fun x => x * x).sum)

/-- A Python float as produced by the similarity computation: an ordinary
finite value (abstracted as a real number), or IEEE `nan`. -/
inductive PyFloat : Type where
  | val (x : ℝ)
  | nan

/-- IEEE comparison `x <= y` as used by Python's sort on similarity keys:
any comparison involving `nan` is false. -/
noncomputable def pyLE : PyFloat → PyFloat → Bool
  | .val x, .val y => decide (x ≤ y)
  | _, _ => false

/-- `VectorHelper.cosine_similarity` (src/shared/utils.py lines 54-58), equal
to `cosine_similarity` in src/slack-rag-bot/main.py lines 31-33:
`np.dot(vec1, vec2) / (np.linalg.norm(vec1) * np.linalg.norm(vec2))`.
`np.dot` raises `ValueError` when the lengths differ; otherwise the division
is performed unconditionally — there is no zero-norm check anywhere.  When
the denominator `‖vec1‖·‖vec2‖` is zero, one of the vectors is the zero
vector, so the numerator `np.dot(vec1, vec2)` is exactly `0.0` (lemma
`dot_eq_zero_of_norm_mul_eq_zero` below) and the IEEE division `0.0/0.0`
yields `nan` (with a numpy warning, no exception); otherwise the quotient is
an ordinary float. -/
noncomputable def cosine_similarity (vec1 vec2 : List ℝ) : Except PyErr PyFloat :=
  if vec1.length = vec2.length then
    .ok (if norm vec1 * norm vec2 = 0 then .nan
         else .val (dot vec1 vec2 / (norm vec1 * norm vec2)))
  else
    .error .valueError

/-- Python list slicing `l[:k]` for an arbitrary integer `k`: a nonnegative
`k` takes the first `k` elements; a negative `k` drops the last `|k|`
elements (empty when `|k| ≥ len(l)`). -/
def pySliceTo (l : List α) (k : Int) : List α :=
  if 0 ≤ k then l.take k.toNat else l.take (l.length - (-k).toNat)

/-- The list comprehension in `find_most_similar` (utils.py lines 70-73):
score every `(i, vec)` of `enumerate(candidate_vectors)` against the query.
An exception from `cosine_similarity` aborts the whole comprehension. -/
noncomputable def scoreAll (query : List ℝ) :
    List (Nat × List ℝ) → Except PyErr (List (Nat × PyFloat))
  | [] => .ok []
  | (i, vec) :: rest =>
    match cosine_similarity query vec with
    | .error e => .error e
    | .ok s =>
      match scoreAll query rest with
      | .error e => .error e
      | .ok tail => .ok ((i, s) :: tail)

/-- The comparator realizing `similarities.sort(key=lambda x: x[1],
reverse=True)`: `a` may precede `b` iff `b`'s score IEEE-compares at most
`a`'s (false whenever either score is `nan`). -/
noncomputable def simDescLE (a b : Nat × PyFloat) : Bool := pyLE b.2 a.2

/-- `VectorHelper.find_most_similar` (utils.py lines 60-75): score every
candidate, sort descending by score, return the `[:top_k]` slice.

CPython's `list.sort` is a stable sort, and `reverse=True` also preserves
the original order of equal keys; on `nan`-free score lists Lean's stable
`List.mergeSort` with the comparator `simDescLE` computes the same unique
stable descending-by-score permutation, so the embedding is exact there.
With a `nan` among the scores the comparisons are inconsistent and CPython's
output order is Timsort-internal; the theorems below assert nothing about
the order of such an output beyond its length and being a permutation. -/
noncomputable def find_most_similar (query_vector : List ℝ)
    (candidate_vectors : List (List ℝ)) (top_k : Int := 5) :
    Except PyErr (List (Nat × PyFloat)) :=
  match scoreAll query_vector candidate_vectors.enum with
  | .error e => .error e
  | .ok similarities => .ok (pySliceTo (similarities.mergeSort simDescLE) top_k)

/-! ## `CacheHelper` (src/shared/utils.py lines 192-219)

`get_key(text) = hashlib.md5(text.encode()).hexdigest()` is a pure,
deterministic function from text to key (the same text always yields the
same key).  All cache operations act on the resulting key string, so the
model works directly at key granularity: `set`/`get` below take the
already-computed digest.  The claims about the cache quantify over
(distinct) keys, matching this granularity. -/

/-- Python-dict lookup `d.get(k)` on an insertion-ordered association
list. -/
def dictGet (l : List (String × α)) (k : String) : Option α :=
  (l.find? fun p => p.1 == k).map fun p => p.2

/-- Python-dict assignment `d[k] = v`: an existing key keeps its position in
insertion order and gets the new value; a fresh key is appended at the
end. -/
def dictInsert (l : List (String × α)) (k : String) (v : α) : List (String × α) :=
  if l.any fun p => p.1 == k then
    l.map fun p => if p.1 == k then (k, v) else p
  else
    l ++ [(k, v)]

/-- `CacheHelper.__init__`: `self.cache = {}` (insertion-ordered dict) and a
capacity `max_size` (default 1000). -/
structure CacheHelper (α : Type) where
  cache : List (String × α)
  max_size : Nat

/-- A freshly constructed `CacheHelper(max_size)`. -/
def CacheHelper.empty (α : Type) (max_size : Nat := 1000) : CacheHelper α :=
  { cache := [], max_size := max_size }

/-- `CacheHelper.get` (utils.py lines 203-206): `self.cache.get(key)`.
The method only reads `self.cache`; `getM` is its state-transformer
embedding, returning the (unchanged) state together with the result. -/
def CacheHelper.get (c : CacheHelper α) (key : String) : Option α :=
  dictGet c.cache key

/-- State-transformer form of `CacheHelper.get`: the Python method body
contains no assignment to `self.cache`, so the post-state is the pre-state. -/
def CacheHelper.getM (c : CacheHelper α) (key : String) :
    CacheHelper α × Option α :=
  (c, dictGet c.cache key)

/-- `CacheHelper.set` (utils.py lines 208-215):

```
if len(self.cache) >= self.max_size:
    self.cache.pop(next(iter(self.cache)))   # remove first (oldest) item
key = self.get_key(text)
self.cache[key] = value
```

The eviction check runs *before* looking at the key, so it fires even when
the key is already cached.  `next(iter({}))` on an empty dict raises
`StopIteration`, embedded as `none` (only reachable when `max_size = 0`). -/
def CacheHelper.set (c : CacheHelper α) (key : String) (value : α) :
    Option (CacheHelper α) :=
  if c.max_size ≤ c.cache.length then
    match c.cache with
    | [] => none
    | _ :: rest => some { c with cache := dictInsert rest key value }
  else
    some { c with cache := dictInsert c.cache key value }

/-- `CacheHelper.clear` (utils.py lines 217-219): `self.cache.clear()`. -/
def CacheHelper.clear (c : CacheHelper α) : CacheHelper α :=
  { c with cache := [] }

/-- Run a sequence of `set` calls (key/value pairs) left to right. -/
def CacheHelper.setMany (c : CacheHelper α) :
    List (String × α) → Option (CacheHelper α)
  | [] => some c
  | (k, v) :: rest =>
    match c.set k v with
    | none => none
    | some c' => c'.setMany rest

/-- A cache method call: `set(text, value)` or `get(text)`, at key
granularity. -/
inductive CacheOp (α : Type) where
  | set (key : String) (value : α)
  | get (key : String)

/-- The state reached after one cache method call (`none` when `set` hits
the `StopIteration` corner).  `get` contributes the post-state of `getM`. -/
def CacheHelper.step (c : CacheHelper α) : CacheOp α → Option (CacheHelper α)
  | .set k v => c.set k v
  | .get k => some (c.getM k).1

/-- The state reached after a sequence of cache method calls. -/
def CacheHelper.runOps (c : CacheHelper α) : List (CacheOp α) → Option (CacheHelper α)
  | [] => some c
  | op :: rest =>
    match c.step op with
    | none => none
    | some c' => c'.runOps rest

/-! ## The RAG pipeline (src/slack-rag-bot/main.py)

`get_embedding` (Vertex AI) and the BigQuery fetch (`SELECT ... LIMIT 100`)
are external collaborators; the embedded functions take the query embedding
and the fetched rows as inputs.  The LLM (`llm_model.predict`) is a function
parameter that may fail. -/

/-- One row of the `knowledge_base.documents` table as fetched by
`search_knowledge_base`.  The `embedding` column is a JSON string; the model
carries it already parsed, with `none` standing for a NULL/empty (falsy)
value, which the code skips before calling `json.loads`. -/
structure Row where
  content : String
  metadata : String
  embedding : Option (List ℝ)

/-- An entry of `docs_with_scores` built by `search_knowledge_base`. -/
structure ScoredDoc where
  content : String
  metadata : String
  similarity : PyFloat

/-- The scoring loop of `search_knowledge_base` (main.py lines 58-67): rows
with a falsy `embedding` are skipped; otherwise `cosine_similarity` is
computed against the query embedding, and any exception it raises (a
dimensionality mismatch) aborts the whole loop. -/
noncomputable def scoreRows (query_embedding : List ℝ) :
    List Row → Except PyErr (List ScoredDoc)
  | [] => .ok []
  | r :: rest =>
    match r.embedding with
    | none => scoreRows query_embedding rest
    | some e =>
      match cosine_similarity query_embedding e with
      | .error err => .error err
      | .ok s =>
        match scoreRows query_embedding rest with
        | .error err => .error err
        | .ok tail =>
          .ok ({ content := r.content, metadata := r.metadata, similarity := s } :: tail)

/-- The comparator realizing `docs_with_scores.sort(key=lambda x:
x['similarity'], reverse=True)` (main.py line 70), with IEEE `nan`
comparisons false. -/
noncomputable def docDescLE (a b : ScoredDoc) : Bool := pyLE b.similarity a.similarity

/-- `search_knowledge_base` (main.py lines 35-71) after the collaborator
calls: score the fetched rows, sort by similarity descending (stable, as in
`find_most_similar`), return the `[:top_k]` slice.  There is no `min_score`
parameter and no filtering by score. -/
noncomputable def search_knowledge_base (query_embedding : List ℝ)
    (rows : List Row) (top_k : Int := 3) : Except PyErr (List ScoredDoc) :=
  match scoreRows query_embedding rows with
  | .error e => .error e
  | .ok docs_with_scores =>
    .ok (pySliceTo (docs_with_scores.mergeSort docDescLE) top_k)

/-- The context block built by `generate_answer` (main.py lines 77-80):
`"\n\n".join(f"Document {i+1}:\n{doc['content']}" ...)`. -/
def buildContext (context_docs : List ScoredDoc) : String :=
  String.intercalate "\n\n"
    (context_docs.enum.map fun p =>
      "Document " ++ toString (p.1 + 1) ++ ":\n" ++ p.2.content)

/-- The prompt built by `generate_answer` (main.py lines 83-91). -/
def buildPrompt (question : String) (context_docs : List ScoredDoc) : String :=
  "You are a helpful assistant. Answer the question based on the context provided.\n" ++
  "If the context doesn't contain relevant information, say so.\n\nContext:\n" ++
  buildContext context_docs ++ "\n\nQuestion: " ++ question ++ "\n\nAnswer:"

/-- `generate_answer` (main.py lines 73-100): build the prompt and call the
LLM (`llm_model.predict`, an external collaborator that may raise). -/
def generate_answer (question : String) (context_docs : List ScoredDoc)
    (llm : String → Except PyErr String) : Except PyErr String :=
  llm (buildPrompt question context_docs)

/-- The row inserted by `log_interaction` (main.py lines 102-117):
question, answer, `len(sources)`, and `sources[0]['similarity']` if any
(else 0). -/
structure InteractionRow where
  question : String
  answer : String
  sources_used : Nat
  top_similarity : PyFloat

/-- `log_interaction` (main.py lines 102-117) as the row it records (the
literal `0` is inserted when there are no sources). -/
def log_interaction (question answer : String) (sources : List ScoredDoc) :
    InteractionRow :=
  { question := question
    answer := answer
    sources_used := sources.length
    top_similarity :=
      match sources with
      | [] => .val 0
      | d :: _ => d.similarity }

/-- The Slack responses the RAG stage of `slack_bot` can produce. -/
inductive SlackResponse where
  | noInfo
  | answered (answer : String) (sources : List ScoredDoc)
  | errorResponse

/-- Whether a response is the full success path (answer generated). -/
def SlackResponse.isAnswered : SlackResponse → Bool
  | .answered _ _ => true
  | _ => false

/-- The observable outcome of one pass through the RAG stage: the response
sent to Slack, how many times the generation model was invoked, and the
interaction rows recorded. -/
structure PipelineOutcome where
  response : SlackResponse
  genCalls : Nat
  logRows : List InteractionRow

/-- The RAG stage of `slack_bot` (main.py lines 153-205), the `try` block:

1. `search_knowledge_base(question, top_k=3)`;
2. if it returns no documents, reply `"I couldn't find relevant information
   in the knowledge base."` without calling the LLM (modelled by `noInfo`);
3. otherwise `generate_answer`, then `log_interaction`, then the formatted
   in-channel response (modelled by `answered`);
4. any exception (from the search or the LLM) is caught by the `except`
   clause and turned into an ephemeral error response with HTTP 500
   (modelled by `errorResponse`), recording nothing. -/
noncomputable def rag_stage (question : String) (query_embedding : List ℝ)
    (rows : List Row) (llm : String → Except PyErr String) : PipelineOutcome :=
  match search_knowledge_base query_embedding rows 3 with
  | .error _ => { response := .errorResponse, genCalls := 0, logRows := [] }
  | .ok relevant_docs =>
    if relevant_docs.isEmpty then
      { response := .noInfo, genCalls := 0, logRows := [] }
    else
      match generate_answer question relevant_docs llm with
      | .error _ => { response := .errorResponse, genCalls := 1, logRows := [] }
      | .ok answer =>
        { response := .answered answer relevant_docs
          genCalls := 1
          logRows := [log_interaction question answer relevant_docs] }

/-! ## Auxiliary notions for the proofs

The program's comparators `simDescLE`/`docDescLE` are not total on
`PyFloat` (every `nan` comparison is false).  On `nan`-free score lists they
are the images, under the injections below, of the total real-scored
comparators `simDescLER`/`docDescLER`, which is how sortedness and stability
are transferred. -/

/-- Auxiliary: the real-scored entry comparator (descending by score). -/
noncomputable def simDescLER (a b : Nat × ℝ) : Bool := decide (b.2 ≤ a.2)

/-- Auxiliary: the real value of an ordinary score (0 for `nan`). -/
def PyFloat.unval : PyFloat → ℝ
  | .val x => x
  | .nan => 0

/-- Auxiliary: lift a real-scored entry to a `PyFloat`-scored one. -/
def liftSim (p : Nat × ℝ) : Nat × PyFloat := (p.1, .val p.2)

/-- Auxiliary: forget the `nan` case of a scored entry. -/
def lowerSim (p : Nat × PyFloat) : Nat × ℝ := (p.1, p.2.unval)

theorem dictGet_eq_none_of_forall_ne {l : List (String × α)} {k : String}
    (h : ∀ p ∈ l, p.1 ≠ k) : dictGet l k = none := by
  have hfind : l.find? (fun p => p.1 == k) = none :=
    List.find?_eq_none.mpr (by intro p hp; simpa using h p hp)
  simp [dictGet, hfind]

theorem dictGet_of_mem_of_nodup {l : List (String × α)} {k : String} {v : α}
    (hnd : (l.map Prod.fst).Nodup) (hmem : (k, v) ∈ l) : dictGet l k = some v := by
  induction l with
  | nil => cases hmem
  | cons p rest ih =>
    rcases List.mem_cons.mp hmem with h | h
    · subst h
      simp [dictGet]
    · have hne : p.1 ≠ k := by
        intro he
        have : k ∈ rest.map Prod.fst := by
          exact List.mem_map.mpr ⟨(k, v), h, rfl⟩
        simp only [List.map_cons, List.nodup_cons] at hnd
        exact hnd.1 (he ▸ this)
      have : dictGet rest k = some v := by
        apply ih ?_ h
        simp only [List.map_cons, List.nodup_cons] at hnd
        exact hnd.2
      simpa [dictGet, List.find?_cons, hne] using this

theorem dictInsert_append_of_fresh {l : List (String × α)} {k : String} {v : α}
    (h : ∀ p ∈ l, p.1 ≠ k) : dictInsert l k v = l ++ [(k, v)] := by
  unfold dictInsert
  rw [if_neg]
  simp only [List.any_eq_true, beq_iff_eq, not_exists, not_and]
  exact fun p hp => h p hp

theorem length_dictInsert_le (l : List (String × α)) (k : String) (v : α) :
    (dictInsert l k v).length ≤ l.length + 1 := by
  unfold dictInsert
  split
  · simp
  · simp

/-! ## Lemmas about `CacheHelper` -/

theorem CacheHelper.setMany_append {α : Type} (c : CacheHelper α)
    (l₁ l₂ : List (String × α)) :
    c.setMany (l₁ ++ l₂) =
      match c.setMany l₁ with
      | none => none
      | some c' => c'.setMany l₂ := by
  induction l₁ generalizing c with
  | nil => simp [setMany]
  | cons p rest ih =>
    simp only [List.cons_append, setMany]
    cases c.set p.1 p.2 with
    | none => rfl
    | some c' => exact ih c'

/-- Filling a cache that has room with fresh, pairwise-distinct keys appends
them in insertion order. -/
theorem CacheHelper.setMany_fill {α : Type} (m : Nat) :
    ∀ (ops l : List (String × α)),
      (∀ p ∈ ops, ∀ q ∈ l, q.1 ≠ p.1) →
      (ops.map Prod.fst).Nodup →
      l.length + ops.length ≤ m →
      CacheHelper.setMany ⟨l, m⟩ ops = some ⟨l ++ ops, m⟩
  | [], l, _, _, _ => by simp [setMany]
  | (k, v) :: rest, l, hfresh, hnd, hle => by
    have hlt : ¬ m ≤ l.length := by
      simp only [List.length_cons] at hle
      omega
    have hset : CacheHelper.set ⟨l, m⟩ k v = some ⟨l ++ [(k, v)], m⟩ := by
      unfold CacheHelper.set
      rw [if_neg hlt, dictInsert_append_of_fresh]
      intro q hq
      exact hfresh (k, v) (List.mem_cons_self _ _) q hq
    have hnd' : (rest.map Prod.fst).Nodup := by
      simp only [List.map_cons, List.nodup_cons] at hnd
      exact hnd.2
    have hk_not : k ∉ rest.map Prod.fst := by
      simp only [List.map_cons, List.nodup_cons] at hnd
      exact hnd.1
    have hfresh' : ∀ p ∈ rest, ∀ q ∈ l ++ [(k, v)], q.1 ≠ p.1 := by
      intro p hp q hq
      rcases List.mem_append.mp hq with h | h
      · exact hfresh p (List.mem_cons_of_mem _ hp) q h
      · have : q = (k, v) := by simpa using h
        subst this
        intro he
        exact hk_not (List.mem_map.mpr ⟨p, hp, he.symm⟩)
    have hle' : (l ++ [(k, v)]).length + rest.length ≤ m := by
      simp only [List.length_append, List.length_cons, List.length_nil] at hle ⊢
      omega
    calc CacheHelper.setMany ⟨l, m⟩ ((k, v) :: rest)
        = CacheHelper.setMany ⟨l ++ [(k, v)], m⟩ rest := by
          simp only [setMany, hset]
      _ = some ⟨(l ++ [(k, v)]) ++ rest, m⟩ :=
          CacheHelper.setMany_fill m rest (l ++ [(k, v)]) hfresh' hnd' hle'
      _ = some ⟨l ++ (k, v) :: rest, m⟩ := by simp

/-! ## Claim C1: capacity bound and FIFO eviction -/

/-- C1: the cache never exceeds `max_size` entries — a single `set` from a
state within capacity stays within capacity, each eviction removing exactly
one (the oldest) entry — and, starting from an empty cache of capacity
`max_size ≥ 1`, inserting `max_size + 1` distinct keys leaves exactly
`max_size` entries with the first-inserted key evicted (FIFO) and every
later key still present with its value. -/
theorem C1_cache_capacity_fifo {α : Type} (m : Nat) (hm : 1 ≤ m)
    (k₁ : String) (v₁ : α) (rest : List (String × α))
    (hlen : rest.length = m)
    (hnd : (((k₁, v₁) :: rest).map Prod.fst).Nodup) :
    (∀ (c c' : CacheHelper α) (k : String) (v : α),
        c.cache.length ≤ c.max_size → c.set k v = some c' →
        c'.cache.length ≤ c.max_size) ∧
    ∃ c : CacheHelper α,
      (CacheHelper.empty α m).setMany ((k₁, v₁) :: rest) = some c ∧
      c.cache.length = m ∧
      c.get k₁ = none ∧
      ∀ p ∈ rest, c.get p.1 = some p.2 := by
  constructor
  · intro c c' k v hle hset
    unfold CacheHelper.set at hset
    by_cases hfull : c.max_size ≤ c.cache.length
    · rw [if_pos hfull] at hset
      cases hc : c.cache with
      | nil => rw [hc] at hset; cases hset
      | cons q qrest =>
        rw [hc] at hset
        cases hset
        have h1 : (dictInsert qrest k v).length ≤ qrest.length + 1 :=
          length_dictInsert_le qrest k v
        have h2 : c.cache.length = qrest.length + 1 := by rw [hc]; rfl
        simp only
        omega
    · rw [if_neg hfull] at hset
      cases hset
      have h1 : (dictInsert c.cache k v).length ≤ c.cache.length + 1 :=
        length_dictInsert_le c.cache k v
      simp only
      omega
  · -- the FIFO scenario: fill with the first `m` keys, then overflow by one
    have hrest_ne : rest ≠ [] := by
      intro h
      rw [h] at hlen
      simp at hlen
      omega
    obtain ⟨init, kl, vl, hsplit⟩ :
        ∃ init kl vl, rest = init ++ [(kl, vl)] :=
      ⟨rest.dropLast, (rest.getLast hrest_ne).1, (rest.getLast hrest_ne).2,
        (List.dropLast_append_getLast hrest_ne).symm⟩
    have hnd₁ : k₁ ∉ rest.map Prod.fst := by
      simp only [List.map_cons, List.nodup_cons] at hnd
      exact hnd.1
    have hndr : (rest.map Prod.fst).Nodup := by
      simp only [List.map_cons, List.nodup_cons] at hnd
      exact hnd.2
    have hnd_init : (init.map Prod.fst).Nodup := by
      rw [hsplit] at hndr
      simp only [List.map_append, List.nodup_append] at hndr
      exact hndr.1
    have hlst_fresh : kl ∉ init.map Prod.fst := by
      rw [hsplit] at hndr
      simp only [List.map_append, List.nodup_append] at hndr
      intro hmem
      exact hndr.2.2 hmem (by simp)
    have hinit_len : init.length + 1 = m := by
      rw [hsplit] at hlen
      simpa using hlen
    -- step 1: the first set appends the first key to the empty cache
    have hstep1 : (CacheHelper.empty α m).set k₁ v₁ = some ⟨[(k₁, v₁)], m⟩ := by
      unfold CacheHelper.set CacheHelper.empty
      rw [if_neg (by simp; omega)]
      rfl
    -- step 2: the next `m - 1` fresh keys fill the cache to capacity
    have hfill : CacheHelper.setMany ⟨[(k₁, v₁)], m⟩ init =
        some ⟨(k₁, v₁) :: init, m⟩ := by
      have := CacheHelper.setMany_fill m init [(k₁, v₁)]
        (by
          intro p hp q hq
          have hq' : q = (k₁, v₁) := by simpa using hq
          subst hq'
          intro he
          exact hnd₁ (by
            rw [hsplit]
            exact List.mem_map.mpr ⟨p, List.mem_append.mpr (Or.inl hp), he.symm⟩))
        hnd_init
        (by simp; omega)
      simpa using this
    -- step 3: the final set evicts the head (the first-inserted key)
    have hstep3 : CacheHelper.set ⟨(k₁, v₁) :: init, m⟩ kl vl =
        some ⟨rest, m⟩ := by
      unfold CacheHelper.set
      rw [if_pos (by simp only [List.length_cons]; omega)]
      have : dictInsert init kl vl = init ++ [(kl, vl)] := by
        rw [dictInsert_append_of_fresh]
        intro q hq he
        exact hlst_fresh (List.mem_map.mpr ⟨q, hq, he⟩)
      simp only [this, ← hsplit]
    refine ⟨⟨rest, m⟩, ?_, by simpa using hlen, ?_, ?_⟩
    · show CacheHelper.setMany (CacheHelper.empty α m) ((k₁, v₁) :: rest) = _
      simp only [CacheHelper.setMany, hstep1]
      rw [hsplit, CacheHelper.setMany_append, hfill]
      simp only [CacheHelper.setMany, hstep3, hsplit]
    · exact dictGet_eq_none_of_forall_ne (by
        intro p hp he
        exact hnd₁ (List.mem_map.mpr ⟨p, hp, he⟩))
    · intro p hp
      exact dictGet_of_mem_of_nodup hndr hp

/-- Witness for C1 at `max_size = 2` with the three distinct keys
`"a", "b", "c"`. -/
theorem C1_cache_capacity_fifo_witness :
    1 ≤ 2 ∧ ([("b", 1), ("c", 2)] : List (String × Nat)).length = 2 ∧
    ((("a", (0 : Nat)) :: [("b", 1), ("c", 2)]).map Prod.fst).Nodup ∧
    ((∀ (c c' : CacheHelper Nat) (k : String) (v : Nat),
        c.cache.length ≤ c.max_size → c.set k v = some c' →
        c'.cache.length ≤ c.max_size) ∧
      ∃ c : CacheHelper Nat,
        (CacheHelper.empty Nat 2).setMany (("a", 0) :: [("b", 1), ("c", 2)]) = some c ∧
        c.cache.length = 2 ∧
        c.get "a" = none ∧
        ∀ p ∈ [("b", 1), ("c", 2)], c.get p.1 = some p.2) :=
  ⟨by decide, by decide, by decide,
    C1_cache_capacity_fifo 2 (by decide) "a" 0 [("b", 1), ("c", 2)]
      (by decide) (by decide)⟩

/-! ## Claim C5: `set` is not size-idempotent at capacity -/

/-- C5 fails on the code: with `max_size = 2`, after `set k1` and `set k2`
the cache holds 2 entries; repeating `set k2` with the same value evicts the
unrelated oldest entry `k1` (the capacity check runs before the key is
looked at), shrinking the cache to 1 entry — though `get k2` still returns
the value.  The claim says the size stays unchanged between the first and
second call. -/
theorem C5_repeat_set_at_capacity_evicts :
    ((CacheHelper.empty Nat 2).setMany [("k1", 1), ("k2", 2), ("k2", 2)]).map
        (fun c => (c.cache.length, c.get "k2", c.get "k1")) =
      some (1, some 2, none) := by
  decide

/-! ## Claim C10: `get` is pure -/

/-- C10: `get` never changes the cache state: its state-transformer form
returns the pre-state, and deleting any `get` from any sequence of cache
method calls leaves the final cache state (contents, size and insertion
order, hence all future evictions) unchanged. -/
theorem C10_get_is_pure {α : Type} (c : CacheHelper α) (t : String)
    (ops₁ ops₂ : List (CacheOp α)) :
    (c.getM t).1 = c ∧
    c.runOps (ops₁ ++ CacheOp.get t :: ops₂) = c.runOps (ops₁ ++ ops₂) := by
  refine ⟨rfl, ?_⟩
  induction ops₁ generalizing c with
  | nil => simp [CacheHelper.runOps, CacheHelper.step, CacheHelper.getM]
  | cons op rest ih =>
    simp only [List.cons_append, CacheHelper.runOps]
    cases c.step op with
    | none => rfl
    | some c' => exact ih c'

/-! ## The zero-denominator case of the cosine computation

These lemmas justify the `nan` case of `cosine_similarity`: a zero norm
product means one vector is the zero vector, so the numerator is exactly 0
and the IEEE division is `0.0/0.0 = nan` (never `x/0.0 = ±inf`). -/

theorem eq_zero_of_sum_sq_eq_zero :
    ∀ {l : List ℝ}, (l.map fun x => x * x).sum = 0 → ∀ x ∈ l, x = 0 := by
  intro l
  induction l with
  | nil => simp
  | cons y t ih =>
    intro h x hx
    simp only [List.map_cons, List.sum_cons] at h
    have hy : 0 ≤ y * y := mul_self_nonneg y
    have ht : 0 ≤ (t.map fun x => x * x).sum := by
      apply List.sum_nonneg
      intro a ha
      obtain ⟨z, _, rfl⟩ := List.mem_map.mp ha
      exact mul_self_nonneg z
    rcases List.mem_cons.mp hx with rfl | hxt
    · exact mul_self_eq_zero.mp (by linarith)
    · exact ih (by linarith) x hxt

theorem dot_eq_zero_of_forall_zero :
    ∀ {a : List ℝ}, (∀ x ∈ a, x = 0) → ∀ b, dot a b = 0 := by
  intro a
  induction a with
  | nil => intro _ b; simp [dot]
  | cons x t ih =>
    intro h b
    cases b with
    | nil => simp [dot]
    | cons y u =>
      have hx : x = 0 := h x (List.mem_cons_self _ _)
      have ht := ih (fun z hz => h z (List.mem_cons_of_mem _ hz)) u
      simp only [dot, List.zipWith_cons_cons, List.sum_cons] at ht ⊢
      rw [hx, zero_mul, zero_add, ht]

theorem norm_eq_zero_forall {a : List ℝ} (h : norm a = 0) : ∀ x ∈ a, x = 0 := by
  apply eq_zero_of_sum_sq_eq_zero
  have hnn : 0 ≤ (a.map fun x => x * x).sum := by
    apply List.sum_nonneg
    intro z hz
    obtain ⟨w, _, rfl⟩ := List.mem_map.mp hz
    exact mul_self_nonneg w
  have := Real.sqrt_eq_zero'.mp h
  linarith

theorem dot_eq_zero_of_norm_mul_eq_zero {a b : List ℝ}
    (h : norm a * norm b = 0) : dot a b = 0 := by
  rcases mul_eq_zero.mp h with h' | h'
  · exact dot_eq_zero_of_forall_zero (norm_eq_zero_forall h') b
  · have hcomm : dot a b = dot b a := by
      unfold dot
      rw [List.zipWith_comm_of_comm (fun x y => x * y) mul_comm]
    rw [hcomm]
    exact dot_eq_zero_of_forall_zero (norm_eq_zero_forall h') a

/-! ## Claim C2: no zero-norm check in `cosine_similarity` -/

/-- C2 fails on the code: on the zero vector (norm 0) the function does not
fail with `DegenerateVectorError` — it unconditionally computes the division
(IEEE: `0.0/0.0 = nan`, with a numpy warning but no exception) and returns a
non-error `nan` value. -/
theorem C2_zero_norm_returns_ok :
    cosine_similarity [(0 : ℝ)] [(0 : ℝ)] = .ok .nan ∧
    cosine_similarity [(0 : ℝ)] [(0 : ℝ)] ≠ .error .degenerateVector := by
  have hn : norm [(0 : ℝ)] = 0 := by simp [norm]
  have h : cosine_similarity [(0 : ℝ)] [(0 : ℝ)] = .ok .nan := by
    unfold cosine_similarity
    rw [if_pos rfl, if_pos (by rw [hn, mul_zero])]
  refine ⟨h, ?_⟩
  rw [h]
  intro hc
  cases hc

/-! ## Lemmas about scoring and the stable descending sort -/

theorem cosine_similarity_val {a b : List ℝ} (hlen : a.length = b.length)
    (h : norm a * norm b ≠ 0) :
    cosine_similarity a b = .ok (.val (dot a b / (norm a * norm b))) := by
  unfold cosine_similarity
  rw [if_pos hlen, if_neg h]

theorem cosine_similarity_nan {a b : List ℝ} (hlen : a.length = b.length)
    (h : norm a * norm b = 0) :
    cosine_similarity a b = .ok .nan := by
  unfold cosine_similarity
  rw [if_pos hlen, if_pos h]

theorem cosine_similarity_ok_of_length {a b : List ℝ}
    (hlen : a.length = b.length) : ∃ s, cosine_similarity a b = .ok s := by
  unfold cosine_similarity
  rw [if_pos hlen]
  exact ⟨_, rfl⟩

theorem cosine_similarity_ok_not_nan {a b : List ℝ} {s : PyFloat}
    (h : cosine_similarity a b = .ok s) (hnz : norm a * norm b ≠ 0) :
    ∃ x, s = .val x := by
  by_cases hlen : a.length = b.length
  · rw [cosine_similarity_val hlen hnz] at h
    cases h
    exact ⟨_, rfl⟩
  · unfold cosine_similarity at h
    rw [if_neg hlen] at h
    cases h

/-- A two-element `mergeSort` is decided by one comparison. -/
theorem mergeSort_pair {α : Type} (le : α → α → Bool) (a b : α) :
    [a, b].mergeSort le = if le a b then [a, b] else [b, a] := by
  rw [List.mergeSort]
  have h1 : (List.splitInTwo ⟨[a, b], rfl⟩).1.1 = [a] := by simp
  have h2 : (List.splitInTwo ⟨[a, b], rfl⟩).2.1 = [b] := by simp
  rw [h1, h2, List.mergeSort_singleton, List.mergeSort_singleton]
  by_cases h : le a b
  · rw [if_pos h]
    simp [List.merge, h]
  · rw [if_neg h]
    simp [List.merge, h]

theorem scoreAll_map_fst {query : List ℝ} :
    ∀ {l : List (Nat × List ℝ)} {sims : List (Nat × PyFloat)},
      scoreAll query l = .ok sims → sims.map Prod.fst = l.map Prod.fst := by
  intro l
  induction l with
  | nil => intro sims h; cases h; rfl
  | cons p rest ih =>
    intro sims h
    obtain ⟨i, v⟩ := p
    simp only [scoreAll] at h
    cases hcs : cosine_similarity query v with
    | error e => rw [hcs] at h; cases h
    | ok s =>
      rw [hcs] at h
      cases hrest : scoreAll query rest with
      | error e => rw [hrest] at h; cases h
      | ok tail =>
        rw [hrest] at h
        cases h
        simpa using ih hrest

/-- Scoring succeeds when every candidate has the query's dimensionality. -/
theorem scoreAll_ok_of_dim {query : List ℝ} :
    ∀ {l : List (Nat × List ℝ)},
      (∀ p ∈ l, (p.2 : List ℝ).length = query.length) →
      ∃ sims, scoreAll query l = .ok sims := by
  intro l
  induction l with
  | nil => intro _; exact ⟨[], rfl⟩
  | cons p rest ih =>
    intro hdim
    obtain ⟨i, v⟩ := p
    obtain ⟨s, hs⟩ := cosine_similarity_ok_of_length
      (hdim (i, v) (List.mem_cons_self _ _)).symm
    obtain ⟨tail, htail⟩ := ih fun q hq => hdim q (List.mem_cons_of_mem _ hq)
    exact ⟨(i, s) :: tail, by simp only [scoreAll, hs, htail]⟩

/-- When no candidate makes the norm product vanish, no score is `nan`. -/
theorem scoreAll_not_nan {query : List ℝ} :
    ∀ {l : List (Nat × List ℝ)} {sims : List (Nat × PyFloat)},
      (∀ p ∈ l, norm query * norm (p.2 : List ℝ) ≠ 0) →
      scoreAll query l = .ok sims →
      ∀ q ∈ sims, (q.2 : PyFloat) ≠ .nan := by
  intro l
  induction l with
  | nil => intro sims _ h; cases h; simp
  | cons p rest ih =>
    intro sims hnz h
    obtain ⟨i, v⟩ := p
    simp only [scoreAll] at h
    cases hcs : cosine_similarity query v with
    | error e => rw [hcs] at h; cases h
    | ok s =>
      rw [hcs] at h
      cases hrest : scoreAll query rest with
      | error e => rw [hrest] at h; cases h
      | ok tail =>
        rw [hrest] at h
        cases h
        intro q hq
        rcases List.mem_cons.mp hq with rfl | hqt
        · obtain ⟨x, hx⟩ := cosine_similarity_ok_not_nan hcs
            (hnz (i, v) (List.mem_cons_self _ _))
          simp [hx]
        · exact ih (fun r hr => hnz r (List.mem_cons_of_mem _ hr)) hrest q hqt

theorem liftSim_lowerSim {p : Nat × PyFloat} (h : p.2 ≠ .nan) :
    liftSim (lowerSim p) = p := by
  obtain ⟨i, s⟩ := p
  cases s with
  | val x => rfl
  | nan => exact absurd rfl h

/-- On a `nan`-free score list the program's sort is the image of the
real-scored sort: the comparators agree on all lifted pairs. -/
theorem mergeSort_simDescLE_of_not_nan {sims : List (Nat × PyFloat)}
    (h : ∀ p ∈ sims, (p.2 : PyFloat) ≠ .nan) :
    sims.mergeSort simDescLE =
      ((sims.map lowerSim).mergeSort simDescLER).map liftSim := by
  have hround : (sims.map lowerSim).map liftSim = sims := by
    rw [List.map_map]
    calc sims.map (liftSim ∘ lowerSim)
        = sims.map id := List.map_congr_left fun p hp => liftSim_lowerSim (h p hp)
      _ = sims := List.map_id sims
  calc sims.mergeSort simDescLE
      = ((sims.map lowerSim).map liftSim).mergeSort simDescLE := by rw [hround]
    _ = ((sims.map lowerSim).mergeSort simDescLER).map liftSim :=
        (@List.map_mergeSort (Nat × ℝ) (Nat × PyFloat) simDescLER simDescLE
          liftSim (sims.map lowerSim) (fun a _ b _ => rfl)).symm

theorem pairwise_fst_lt_of_map_fst_range {β : Type} {sims : List (Nat × β)} {n : Nat}
    (h : sims.map Prod.fst = List.range n) :
    sims.Pairwise fun a b => a.1 < b.1 := by
  have hp := List.pairwise_lt_range n
  rw [← h] at hp
  exact List.pairwise_map.mp hp

/-- If a pairwise relation holds along a list, any two distinct members are
related one way or the other. -/
theorem rel_or_rel_of_pairwise_of_mem {α : Type} {R : α → α → Prop} {l : List α}
    (hp : l.Pairwise R) {a b : α} (ha : a ∈ l) (hb : b ∈ l) (hne : a ≠ b) :
    R a b ∨ R b a := by
  have h2 : l.Pairwise fun x y => R x y ∨ R y x := hp.imp Or.inl
  exact h2.forall (fun x y h => h.symm) ha hb hne

/-- Two members related by an asymmetric pairwise relation occur in the list
in that order, as a two-element sublist. -/
theorem pair_sublist_of_pairwise_rel {α : Type} {R : α → α → Prop}
    (hasymm : ∀ x y, R x y → ¬ R y x) {l : List α} (hp : l.Pairwise R)
    {a b : α} (ha : a ∈ l) (hb : b ∈ l) (hab : R a b) : [a, b] <+ l := by
  induction l with
  | nil => cases ha
  | cons x t ih =>
    rw [List.pairwise_cons] at hp
    rcases List.mem_cons.mp ha with rfl | hat
    · have hbt : b ∈ t := by
        rcases List.mem_cons.mp hb with rfl | h
        · exact absurd hab (hasymm _ _ hab)
        · exact h
      exact List.Sublist.cons₂ a (List.singleton_sublist.mpr hbt)
    · rcases List.mem_cons.mp hb with rfl | hbt
      · exact absurd (hp.1 a hat) (hasymm _ _ hab)
      · exact List.Sublist.cons x (ih hp.2 hat hbt)

/-- In a duplicate-free list, `[a, b]` and `[b, a]` cannot both be sublists
unless `a = b`. -/
theorem eq_of_pair_sublists_of_nodup {α : Type} {l : List α}
    (hnd : l.Nodup) {a b : α} (h₁ : [a, b] <+ l) (h₂ : [b, a] <+ l) : a = b := by
  induction l with
  | nil => simp at h₁
  | cons x t ih =>
    rw [List.nodup_cons] at hnd
    cases h₁ with
    | cons _ h₁t =>
      cases h₂ with
      | cons _ h₂t => exact ih hnd.2 h₁t h₂t
      | cons₂ h₂t => exact absurd (h₁t.subset (by simp)) hnd.1
    | cons₂ h₁t =>
      cases h₂ with
      | cons _ h₂t => exact absurd (h₂t.subset (by simp)) hnd.1
      | cons₂ h₂t => rfl

theorem simDescLER_trans :
    ∀ a b c : Nat × ℝ, simDescLER a b → simDescLER b c → simDescLER a c := by
  intro a b c hab hbc
  simp only [simDescLER, decide_eq_true_eq] at hab hbc ⊢
  exact le_trans hbc hab

theorem simDescLER_total : ∀ a b : Nat × ℝ, simDescLER a b || simDescLER b a := by
  intro a b
  simp only [simDescLER, Bool.or_eq_true, decide_eq_true_eq]
  exact le_total b.2 a.2

/-- The slice of any list under Python slicing is a sublist. -/
theorem pySliceTo_sublist (l : List α) (k : Int) : pySliceTo l k <+ l := by
  unfold pySliceTo
  split
  · exact List.take_sublist _ _
  · exact List.take_sublist _ _

/-- Sorting a real-scored index-tagged list with strictly increasing indices
by descending score is simultaneously sorted (non-increasing scores) and
stable (equal scores keep increasing indices, i.e. the input order). -/
theorem mergeSort_simDesc_sorted_stable {sims : List (Nat × ℝ)}
    (hfst : sims.Pairwise fun a b => a.1 < b.1) :
    (sims.mergeSort simDescLER).Pairwise
      fun a b => b.2 ≤ a.2 ∧ (a.2 = b.2 → a.1 < b.1) := by
  have hsorted := List.sorted_mergeSort simDescLER_trans simDescLER_total sims
  have hsorted' : (sims.mergeSort simDescLER).Pairwise fun a b => b.2 ≤ a.2 :=
    hsorted.imp fun h => by simpa [simDescLER] using h
  have hnds : sims.Nodup := hfst.imp fun h he => by subst he; exact lt_irrefl _ h
  have hndo : (sims.mergeSort simDescLER).Nodup :=
    (List.mergeSort_perm sims simDescLER).symm.nodup hnds
  have hstab : (sims.mergeSort simDescLER).Pairwise
      fun a b => a.2 = b.2 → a.1 < b.1 := by
    rw [List.pairwise_iff_forall_sublist]
    intro a b hsub heq
    have ha : a ∈ sims := List.mem_mergeSort.mp (hsub.subset (by simp))
    have hb : b ∈ sims := List.mem_mergeSort.mp (hsub.subset (by simp))
    have hne : a ≠ b := by
      have hpairnd := List.Nodup.sublist hsub hndo
      rw [List.nodup_cons] at hpairnd
      simpa using hpairnd.1
    rcases rel_or_rel_of_pairwise_of_mem hfst ha hb hne with h | h
    · exact h
    · exfalso
      have hba : [b, a] <+ sims :=
        pair_sublist_of_pairwise_rel
          (fun x y hxy hyx => absurd hyx (Nat.lt_asymm hxy)) hfst hb ha h
      have hle : simDescLER b a := by
        simp [simDescLER, heq]
      have hba' : [b, a] <+ sims.mergeSort simDescLER :=
        List.pair_sublist_mergeSort simDescLER_trans simDescLER_total hle hba
      exact hne (eq_of_pair_sublists_of_nodup hndo hsub hba')
  exact hsorted'.and hstab

/-! ## Claim C3: ranking output length -/

/-- C3 fails on the code for negative `k`: `similarities[:top_k]` with
`top_k = -1` is Python negative slicing, which drops the *last* entry and
returns the rest — here 1 entry from 2 candidates, not the empty sequence
the claim requires for every `k ≤ 0`. -/
theorem C3_negative_k_not_empty :
    (find_most_similar [(1 : ℝ)] [[1], [1]] (-1)).map List.length = .ok 1 := by
  have hn1 : norm [(1 : ℝ)] = 1 := by simp [norm]
  have hcs : cosine_similarity [(1 : ℝ)] [1] =
      .ok (.val (dot [1] [1] / (norm [1] * norm [1]))) :=
    cosine_similarity_val rfl (by rw [hn1, mul_one]; norm_num)
  have hs : scoreAll [(1 : ℝ)] ([[1], [1]] : List (List ℝ)).enum =
      .ok [(0, .val (dot [1] [1] / (norm [1] * norm [1]))),
           (1, .val (dot [1] [1] / (norm [1] * norm [1])))] := by
    show scoreAll [(1 : ℝ)] [(0, [1]), (1, [1])] = _
    simp only [scoreAll, hcs]
  simp only [find_most_similar, hs, pySliceTo]
  rw [if_neg (by decide)]
  simp [Except.map, List.length_take, List.length_mergeSort]

/-- C3 amended: for every `k ≥ 0` the output length is
`min k (number of candidates)` — all candidates are scored (none is treated
as invalid), assuming every candidate has the query's dimensionality
(otherwise the call raises `ValueError`, see C6).  For `k < 0` Python
slicing keeps all but the last `|k|` entries, so only `k = 0` (not every
`k ≤ 0`) yields the empty sequence. -/
theorem C3_length_min_for_nonneg_k (query : List ℝ) (cands : List (List ℝ))
    (k : Int) (hdim : ∀ v ∈ cands, v.length = query.length) (hk : 0 ≤ k) :
    ∃ l, find_most_similar query cands k = .ok l ∧
      l.length = min k.toNat cands.length := by
  have hdim' : ∀ p ∈ cands.enum, (p.2 : List ℝ).length = query.length := by
    intro p hp
    apply hdim
    have := List.mem_map_of_mem Prod.snd hp
    rwa [List.enum_map_snd] at this
  obtain ⟨sims, hsims⟩ := scoreAll_ok_of_dim hdim'
  have hlen : sims.length = cands.length := by
    have := congrArg List.length (scoreAll_map_fst hsims)
    simpa using this
  refine ⟨pySliceTo (sims.mergeSort simDescLE) k, ?_, ?_⟩
  · simp only [find_most_similar, hsims]
  · simp only [pySliceTo, if_pos hk]
    simp [List.length_take, List.length_mergeSort, hlen]

/-- Witness for C3 (amended) at `query = [1]`, two one-dimensional
candidates and `k = 1`. -/
theorem C3_length_min_for_nonneg_k_witness :
    (∀ v ∈ [[(5 : ℝ)], [6]], List.length v = List.length [(1 : ℝ)]) ∧
    (0 : Int) ≤ 1 ∧
    ∃ l, find_most_similar [(1 : ℝ)] [[5], [6]] 1 = .ok l ∧
      l.length = min (1 : Int).toNat ([[(5 : ℝ)], [6]] : List (List ℝ)).length := by
  have hdim : ∀ v ∈ [[(5 : ℝ)], [6]], List.length v = List.length [(1 : ℝ)] := by
    intro v hv
    simp only [List.mem_cons, List.not_mem_nil, or_false] at hv
    rcases hv with rfl | rfl <;> rfl
  exact ⟨hdim, by decide,
    C3_length_min_for_nonneg_k [(1 : ℝ)] [[5], [6]] 1 hdim (by decide)⟩

/-! ## Claim C4: ranking is sorted descending and stable -/

/-- C4 fails on the code as universally stated: a zero-norm candidate scores
IEEE `nan`, and a two-entry output holding one `nan` and one ordinary score
is not non-increasing in *either* arrangement, since every IEEE comparison
with `nan` is false.  For query `[1]` and candidates `[[0], [1]]` the
program computes scores `[nan, 1.0]` (and Timsort returns them `nan`
first); the embedded sort returns the other arrangement — the refutation
below holds for any order and so does not depend on the unmodelled Timsort
internals. -/
theorem C4_zero_norm_candidate_unsorted :
    ¬ ∀ l : List (Nat × PyFloat),
        find_most_similar [(1 : ℝ)] [[0], [1]] 5 = .ok l →
        l.Pairwise fun a b => pyLE b.2 a.2 ∧ (a.2 = b.2 → a.1 < b.1) := by
  intro hall
  have hn1 : norm [(1 : ℝ)] = 1 := by simp [norm]
  have hn0 : norm [(0 : ℝ)] = 0 := by simp [norm]
  have hcs0 : cosine_similarity [(1 : ℝ)] [0] = .ok .nan :=
    cosine_similarity_nan rfl (by rw [hn0, mul_zero])
  have hcs1 : cosine_similarity [(1 : ℝ)] [1] =
      .ok (.val (dot [1] [1] / (norm [1] * norm [1]))) :=
    cosine_similarity_val rfl (by rw [hn1, mul_one]; norm_num)
  have hsA : scoreAll [(1 : ℝ)] ([[0], [1]] : List (List ℝ)).enum =
      .ok [(0, .nan), (1, .val (dot [1] [1] / (norm [1] * norm [1])))] := by
    show scoreAll [(1 : ℝ)] [(0, [0]), (1, [1])] = _
    simp only [scoreAll, hcs0, hcs1]
  have hfind : find_most_similar [(1 : ℝ)] [[0], [1]] 5 =
      .ok [(1, .val (dot [1] [1] / (norm [1] * norm [1]))), (0, .nan)] := by
    simp only [find_most_similar, hsA]
    rw [mergeSort_pair, if_neg (by simp [simDescLE, pyLE])]
    simp [pySliceTo]
  have hpw := hall _ hfind
  rw [List.pairwise_cons] at hpw
  have hrel := hpw.1 (0, PyFloat.nan) (by simp)
  have hfalse : pyLE PyFloat.nan
      (PyFloat.val (dot [1] [1] / (norm [1] * norm [1]))) = true := hrel.1
  simp [pyLE] at hfalse

/-- C4 amended: on candidate lists where no score degenerates to `nan` (no
zero-norm query or candidate, the only case the spec's own scorer contract
excludes), the output of `find_most_similar` is sorted by non-increasing
score, and stably so: entries with equal scores appear in increasing index
order, i.e. in their input order (CPython's sort and the embedded
`mergeSort` are both stable under `reverse=True`, and on `nan`-free keys
both compute the unique stable descending permutation). -/
theorem C4_ranking_sorted_and_stable (query : List ℝ) (cands : List (List ℝ))
    (k : Int) (l : List (Nat × PyFloat))
    (hnz : ∀ v ∈ cands, norm query * norm v ≠ 0)
    (h : find_most_similar query cands k = .ok l) :
    (∀ p ∈ l, (p.2 : PyFloat) ≠ .nan) ∧
    l.Pairwise fun a b => pyLE b.2 a.2 ∧ (a.2 = b.2 → a.1 < b.1) := by
  unfold find_most_similar at h
  cases hs : scoreAll query cands.enum with
  | error e => rw [hs] at h; cases h
  | ok sims =>
    rw [hs] at h
    cases h
    have hnn : ∀ p ∈ sims, (p.2 : PyFloat) ≠ .nan := by
      apply scoreAll_not_nan ?_ hs
      intro p hp
      apply hnz
      have := List.mem_map_of_mem Prod.snd hp
      rwa [List.enum_map_snd] at this
    refine ⟨?_, ?_⟩
    · intro p hp
      exact hnn p (List.mem_mergeSort.mp ((pySliceTo_sublist _ _).subset hp))
    · have hmf := scoreAll_map_fst hs
      rw [List.enum_map_fst] at hmf
      have hmfR : (sims.map lowerSim).map Prod.fst = List.range cands.length := by
        rw [List.map_map]
        exact hmf
      have hfstR : (sims.map lowerSim).Pairwise fun a b => a.1 < b.1 :=
        pairwise_fst_lt_of_map_fst_range hmfR
      have hP := mergeSort_simDesc_sorted_stable hfstR
      rw [mergeSort_simDescLE_of_not_nan hnn]
      apply List.Pairwise.sublist (pySliceTo_sublist _ _)
      rw [List.pairwise_map]
      apply hP.imp
      intro a b hab
      refine ⟨?_, ?_⟩
      · show pyLE (PyFloat.val b.2) (PyFloat.val a.2) = true
        simp [pyLE, hab.1]
      · intro hv
        apply hab.2
        simpa [liftSim] using hv

/-- Witness for C4 (amended) on a concrete successful call. -/
theorem C4_ranking_sorted_and_stable_witness :
    (∀ v ∈ ([] : List (List ℝ)), norm [(1 : ℝ)] * norm v ≠ 0) ∧
    find_most_similar [(1 : ℝ)] [] 0 = .ok [] ∧
    ((∀ p ∈ ([] : List (Nat × PyFloat)), (p.2 : PyFloat) ≠ .nan) ∧
      ([] : List (Nat × PyFloat)).Pairwise
        (fun a b => pyLE b.2 a.2 ∧ (a.2 = b.2 → a.1 < b.1))) :=
  ⟨by simp, rfl,
    C4_ranking_sorted_and_stable [(1 : ℝ)] [] 0 [] (by simp) rfl⟩

/-! ## Claim C6: retrieval bounds, sortedness, and dimension mismatches -/

/-- C7 fails on the code: `search_knowledge_base` has no `min_score`
parameter and never filters by score.  With the spec's own floor of 0.9, a
document scoring 0 (query `[1,0]` against embedding `[0,1]`) is still
returned, so the ranked result is not "filtered to entries with
score ≥ min_score". -/
theorem C7_no_min_score_floor :
    search_knowledge_base [(1 : ℝ), 0]
      [{ content := "c", metadata := "m", embedding := some [0, 1] }] 3 =
      .ok [{ content := "c", metadata := "m", similarity := .val 0 }] ∧
    (0 : ℝ) < 0.9 := by
  constructor
  · have hn10 : norm [(1 : ℝ), 0] = 1 := by simp [norm]
    have hn01 : norm [(0 : ℝ), 1] = 1 := by simp [norm]
    have hdot : dot [(1 : ℝ), 0] [0, 1] = 0 := by simp [dot]
    have hcs : cosine_similarity [(1 : ℝ), 0] [0, 1] = .ok (.val 0) := by
      have h1 : cosine_similarity [(1 : ℝ), 0] [0, 1] =
          .ok (.val (dot [(1 : ℝ), 0] [0, 1] /
            (norm [(1 : ℝ), 0] * norm [(0 : ℝ), 1]))) :=
        cosine_similarity_val (by norm_num) (by rw [hn10, hn01]; norm_num)
      rw [h1, hdot, zero_div]
    have hrows : scoreRows [(1 : ℝ), 0]
        [{ content := "c", metadata := "m", embedding := some [0, 1] }] =
        .ok [{ content := "c", metadata := "m", similarity := .val 0 }] := by
      simp only [scoreRows, hcs]
    simp only [search_knowledge_base, hrows, List.mergeSort_singleton, pySliceTo]
    rw [if_pos (by decide)]
    simp
  · norm_num

/-- C7 amended: no relevance floor exists — for `k ≥ 0` large enough, every
scored document is returned regardless of how low its score is (the result
is a permutation of all scored documents), and an empty result (only from an
empty/no-embedding corpus or `k = 0`) is an ordinary `.ok []`, not an
error. -/
theorem C7_all_docs_returned_unfiltered (qe : List ℝ) (rows : List Row)
    (k : Int) (docs : List ScoredDoc) (hk : 0 ≤ k)
    (h : scoreRows qe rows = .ok docs) (hlen : docs.length ≤ k.toNat) :
    ∃ l, search_knowledge_base qe rows k = .ok l ∧ l.Perm docs := by
  refine ⟨pySliceTo (docs.mergeSort docDescLE) k, ?_, ?_⟩
  · simp only [search_knowledge_base, h]
  · have htake : pySliceTo (docs.mergeSort docDescLE) k = docs.mergeSort docDescLE := by
      simp only [pySliceTo, if_pos hk]
      exact List.take_of_length_le (by simpa [List.length_mergeSort] using hlen)
    rw [htake]
    exact List.mergeSort_perm docs docDescLE

/-- Witness for C7 (amended) on a corpus whose single row lacks an
embedding. -/
theorem C7_all_docs_returned_unfiltered_witness :
    (0 : Int) ≤ 3 ∧
    scoreRows [(1 : ℝ)] [{ content := "a", metadata := "m", embedding := none }] =
      .ok [] ∧
    ([] : List ScoredDoc).length ≤ (3 : Int).toNat ∧
    ∃ l, search_knowledge_base [(1 : ℝ)]
        [{ content := "a", metadata := "m", embedding := none }] 3 = .ok l ∧
      l.Perm ([] : List ScoredDoc) :=
  ⟨by decide, rfl, by decide,
    C7_all_docs_returned_unfiltered [(1 : ℝ)]
      [{ content := "a", metadata := "m", embedding := none }] 3 []
      (by decide) rfl (by decide)⟩

/-! ## Claim C8: empty retrieval short-circuits before generation -/

/-- C8: if retrieval returns zero documents, the RAG stage replies with the
"no information found" response (`"I couldn't find relevant information in
the knowledge base."`) and the generation model is never invoked. -/
theorem C8_empty_retrieval_short_circuits (question : String) (qe : List ℝ)
    (rows : List Row) (llm : String → Except PyErr String)
    (h : search_knowledge_base qe rows 3 = .ok []) :
    (rag_stage question qe rows llm).response = .noInfo ∧
    (rag_stage question qe rows llm).genCalls = 0 := by
  unfold rag_stage
  rw [h]
  exact ⟨rfl, rfl⟩

/-- Witness for C8 on an empty corpus. -/
theorem C8_empty_retrieval_short_circuits_witness :
    search_knowledge_base [(1 : ℝ)] [] 3 = .ok [] ∧
    ((rag_stage "q" [(1 : ℝ)] [] fun _ => .ok "a").response = .noInfo ∧
      (rag_stage "q" [(1 : ℝ)] [] fun _ => .ok "a").genCalls = 0) := by
  have h : search_knowledge_base [(1 : ℝ)] [] 3 = .ok [] := by
    simp [search_knowledge_base, scoreRows, pySliceTo]
  exact ⟨h, C8_empty_retrieval_short_circuits "q" [(1 : ℝ)] [] (fun _ => .ok "a") h⟩

/-! ## Claim C9: interaction logging happens only on full success -/

/-- C9 fails on the code: the empty-retrieval short-circuit records no
interaction log entry (the claim requires exactly one on every path). -/
theorem C9_short_circuit_records_no_log :
    (rag_stage "q" [(1 : ℝ)] [] fun _ => .ok "a").logRows.length = 0 := by
  have h : search_knowledge_base [(1 : ℝ)] [] 3 = .ok [] := by
    simp [search_knowledge_base, scoreRows, pySliceTo]
  simp [rag_stage, h]

/-- C9 amended: `log_interaction` is reached only after a successful
generation — every call records exactly one interaction row if it produces
an answered response, and zero rows on the empty-retrieval short-circuit,
on a retrieval exception, and on a generation exception. -/
theorem C9_exactly_one_log_iff_answered (question : String) (qe : List ℝ)
    (rows : List Row) (llm : String → Except PyErr String) :
    (rag_stage question qe rows llm).logRows.length =
      if (rag_stage question qe rows llm).response.isAnswered then 1 else 0 := by
  unfold rag_stage
  cases search_knowledge_base qe rows 3 with
  | error e => rfl
  | ok docs =>
    by_cases hd : docs.isEmpty
    · simp [hd, SlackResponse.isAnswered]
    · simp only [hd, Bool.false_eq_true, if_false]
      cases generate_answer question docs llm with
      | error e => rfl
      | ok ans => rfl

end Spec2Proof
